import Mathlib

/-!
Shallow embedding of the `events` package of jcjlcodes/eth-eventlog.

Machine integers (`uint64` in the source) are modelled as `Nat` with explicit
wraparound `% 2^64` wherever the Go code can overflow or underflow; byte
arrays (`common.Address`, `common.Hash`, `[]byte`) are modelled as `List Nat`.
Channels and goroutines are erased: a producer is modelled by the (finite,
deterministic) list of messages it emits, and a fallible call returns
`Except`/`Option`.  A Go panic (index out of range, nil dereference) is
modelled as a distinguished error value.
-/

namespace EthEventLog

/-- Wrapping unsigned 64-bit subtraction, as performed by Go's `a - b` on
`uint64` values `a b < 2^64`. -/
def sub64 (a b : Nat) : Nat := (a + (2 ^ 64 - b % 2 ^ 64)) % 2 ^ 64

instance {ε α : Type} [DecidableEq ε] [DecidableEq α] : DecidableEq (Except ε α)
  | Except.error e, Except.error f =>
    if h : e = f then isTrue (h ▸ rfl)
    else isFalse (fun hc => h (Except.error.inj hc))
  | Except.error _, Except.ok _ => isFalse (fun hc => Except.noConfusion hc)
  | Except.ok _, Except.error _ => isFalse (fun hc => Except.noConfusion hc)
  | Except.ok a, Except.ok b =>
    if h : a = b then isTrue (h ▸ rfl)
    else isFalse (fun hc => h (Except.ok.inj hc))

/-- events.Event (events.go).  `TxValue *big.Int` is modelled as `Option Nat`
(nil pointer = `none`; the values the program stores are non-negative). -/
structure Event where
  Address : List Nat
  Topics : List (List Nat)
  Data : List Nat
  BlockNumber : Nat
  BlockHash : List Nat
  Index : Nat
  TxHash : List Nat
  TxIndex : Nat
  TxData : List Nat
  TxValue : Option Nat
  TxFrom : List Nat
  TxGas : Nat
deriving DecidableEq

/-- events.Block (events.go). -/
structure Block where
  Number : Nat
  Hash : List Nat
  Events : List Event
deriving DecidableEq

/-- events.BlockSlice (blockslice.go). -/
structure BlockSlice where
  Start : Nat
  End : Nat
  DistanceFromHead : Nat
  Blocks : List Block
deriving DecidableEq

/-- events.EmptyBlockSlice (blockslice.go). -/
def EmptyBlockSlice (from_ : Nat) : BlockSlice :=
  { Start := from_, End := from_, DistanceFromHead := 0, Blocks := [] }

/-- BlockSlice.Append (blockslice.go): requires `blk.Number >= End`; appends
the block, sets `End := blk.Number + 1` (uint64 wrap) and clears
`DistanceFromHead`. -/
def BlockSlice.Append (b : BlockSlice) (blk : Block) : Except String BlockSlice :=
  if blk.Number < b.End then
    Except.error "blk.Number below End"
  else
    Except.ok { b with
      Blocks := b.Blocks ++ [blk]
      End := (blk.Number + 1) % 2 ^ 64
      DistanceFromHead := 0 }

/-- BlockSlice.Concat (blockslice.go). -/
def BlockSlice.Concat (b other : BlockSlice) : Except String BlockSlice :=
  if b.End ≠ other.Start then
    Except.error "other.Start mismatch"
  else
    Except.ok { b with
      Blocks := b.Blocks ++ other.Blocks
      End := other.End
      DistanceFromHead := other.DistanceFromHead }

/-- BlockSlice.DeleteBeforeBlock (blockslice.go): the loop finds the first
index whose block number is `>= n` and keeps the list from there on
(`dropWhile (Number < n)`); `Start` is set to `n` unconditionally. -/
def BlockSlice.DeleteBeforeBlock (b : BlockSlice) (n : Nat) : BlockSlice :=
  { b with
    Blocks := b.Blocks.dropWhile (fun blk => blk.Number < n)
    Start := n }

/-- BlockSlice.DeleteFromBlock (blockslice.go): the loop scans from the back
and drops the maximal suffix of blocks with `Number >= n`; then
`DistanceFromHead -= End - n` (both operations wrapping uint64 subtraction)
and `End := n`. -/
def BlockSlice.DeleteFromBlock (b : BlockSlice) (n : Nat) : BlockSlice :=
  { b with
    Blocks := ((b.Blocks.reverse).dropWhile (fun blk => n ≤ blk.Number)).reverse
    DistanceFromHead := sub64 b.DistanceFromHead (sub64 b.End n)
    End := n }

/-- BlockSlice.Rollback (blockslice.go): requires `Start <= n <= End`, then
delegates to `DeleteFromBlock`. -/
def BlockSlice.Rollback (b : BlockSlice) (n : Nat) : Except String BlockSlice :=
  if b.End < n then Except.error "n above End"
  else if n < b.Start then Except.error "n below Start"
  else Except.ok (b.DeleteFromBlock n)

/-- BlockSlice.Extend (blockslice.go). -/
def BlockSlice.Extend (b : BlockSlice) (n : Nat) : Except String BlockSlice :=
  if n < b.End then Except.error "n below End"
  else Except.ok { b with End := n }

/-- The BlockSlice invariants of spec section 3: `Start <= End`, block
numbers strictly increasing, and every block number inside `[Start, End)`. -/
def BlockSlice.WF (b : BlockSlice) : Prop :=
  b.Start ≤ b.End ∧
  b.Blocks.Pairwise (fun x y => x.Number < y.Number) ∧
  (∀ blk ∈ b.Blocks, b.Start ≤ blk.Number ∧ blk.Number < b.End)

instance (b : BlockSlice) : Decidable b.WF := by
  unfold BlockSlice.WF; infer_instance

/-- events.Action (part of events.go). -/
inductive Action where
  | Append
  | Rollback
  | SetNext
deriving DecidableEq

/-- events.Message.  A Go struct literal leaves the unset fields at their
zero value (`Number = 0`, `Block = nil`). -/
structure Message where
  action : Action
  Number : Nat
  Block : Option Block
deriving DecidableEq

/-- `&Message{Action: Append, Block: blk}` as built by the producers. -/
def mkAppend (blk : Block) : Message := ⟨Action.Append, 0, some blk⟩

/-- `&Message{Action: Rollback, Number: n}`. -/
def mkRollback (n : Nat) : Message := ⟨Action.Rollback, n, none⟩

/-- `&Message{Action: SetNext, Number: n}`. -/
def mkSetNext (n : Nat) : Message := ⟨Action.SetNext, n, none⟩

/-- Failure modes of `MatchBlocks`: the explicit shorter-fetch error, and the
Go runtime panic from the unchecked index `new.Blocks[i]`. -/
inductive MatchErr where
  | ShorterFetch
  | IndexOutOfRange
deriving DecidableEq

/-- The loop of events.MatchBlocks (events.go): walks the overlap-restricted
old blocks by position `i`, reading `new.Blocks[i]` without a bounds check
(out of range = panic), breaking at the first hash mismatch.  Returns
`(ok, lastGoodBlock)`. -/
def matchLoop (newBlocks : List Block) : List Block → Nat → Nat → Except MatchErr (Bool × Nat)
  | [], _, lastGood => Except.ok (true, lastGood)
  | ob :: rest, i, lastGood =>
    match newBlocks[i]? with
    | none => Except.error MatchErr.IndexOutOfRange
    | some nb =>
      if ob.Hash = nb.Hash then matchLoop newBlocks rest (i + 1) nb.Number
      else Except.ok (false, lastGood)

/-- events.MatchBlocks (events.go): errors when `new.End < old.End`, else
restricts a copy of `old` to `[new.Start, _)` and compares hashes
position-by-position. -/
def MatchBlocks (new old : BlockSlice) : Except MatchErr (Bool × Nat) :=
  if new.End < old.End then Except.error MatchErr.ShorterFetch
  else matchLoop new.Blocks (old.DeleteBeforeBlock new.Start).Blocks 0 0

/-- const MaxEventlogSize (chainstreamer.go). -/
def MaxEventlogSize : Nat := 1024

/-- Ways `chainStreamer.process` can fail (cancellation aside). -/
inductive ProcErr where
  | Match (e : MatchErr)
  | RollbackErr
  | ConcatErr
deriving DecidableEq

/-- Outcome of one `chainStreamer.process` call: the updated history and
cursor, the messages sent on the channel before returning, and the error
returned (`none` = nil). -/
structure ProcResult where
  history : BlockSlice
  next : Nat
  msgs : List Message
  err : Option ProcErr
deriving DecidableEq

/-- Steps 2-4 of chainStreamer.process (chainstreamer.go): trim the overlap
from the batch, concat into history, cap history at `MaxEventlogSize`, emit
one Append per remaining block and a final SetNext, set `next := b.End`.
`msgs` are the messages already sent (a Rollback, when step 1 rolled back). -/
def emitPhase (history : BlockSlice) (next : Nat) (b : BlockSlice) (msgs : List Message) : ProcResult :=
  let b2 := b.DeleteBeforeBlock next
  match history.Concat b2 with
  | Except.error _ => ⟨history, next, msgs, some ProcErr.ConcatErr⟩
  | Except.ok h1 =>
    let h2 := if MaxEventlogSize ≤ h1.End then h1.DeleteBeforeBlock (h1.End - MaxEventlogSize) else h1
    ⟨h2, b2.End, msgs ++ b2.Blocks.map mkAppend ++ [mkSetNext b2.End], none⟩

/-- chainStreamer.process (chainstreamer.go).  `frm` is the immutable
subscription lower bound `cs.from`, `next` the cursor `cs.next`, `history`
the retained slice, `b` the freshly fetched batch.  On reorg the code
computes `if lastGoodBlock+1 < cs.from { lastGoodBlock = cs.from - 1 }`
(wrapping uint64 arithmetic), rolls history back to `lastGoodBlock + 1`,
emits a Rollback message, and stops early when `next < b.Start`. -/
def chainProcess (frm : Nat) (history : BlockSlice) (next : Nat) (b : BlockSlice) : ProcResult :=
  match MatchBlocks b history with
  | Except.error e => ⟨history, next, [], some (ProcErr.Match e)⟩
  | Except.ok (true, _) => emitPhase history next b []
  | Except.ok (false, lastGood0) =>
    let lastGood := if (lastGood0 + 1) % 2 ^ 64 < frm then sub64 frm 1 else lastGood0
    let next2 := (lastGood + 1) % 2 ^ 64
    match history.Rollback next2 with
    | Except.error _ => ⟨history, next, [], some ProcErr.RollbackErr⟩
    | Except.ok h1 =>
      if next2 < b.Start then ⟨h1, next2, [mkRollback next2], none⟩
      else emitPhase h1 next2 b [mkRollback next2]

/-- Step 1 of chainStreamer.run (chainstreamer.go): the fetch lower bound.
`from := cs.next - cs.batchOverlap` (wrapping), overridden with `cs.from`
when `cs.next < cs.from + cs.batchOverlap` (the guard addition also wraps). -/
def fetchFromFor (frm next batchOverlap : Nat) : Nat :=
  if next < (frm + batchOverlap) % 2 ^ 64 then frm else sub64 next batchOverlap

/-- chainStreamer.fetch (chainstreamer.go): the fetch upper bound
`to := from + batchSize - 1` in wrapping uint64 arithmetic, after defaulting
a zero batch size to 2000. -/
def fetchToFor (fetchFrom batchSize : Nat) : Nat :=
  let bs := if batchSize = 0 then 2000 else batchSize
  sub64 ((fetchFrom + bs) % 2 ^ 64) 1

/-- ethereum.FilterQuery as used by this program (addresses, optional block
bounds, topics); block bounds are `*big.Int` pointers modelled as
`Option Nat`. -/
structure FilterQuery where
  Addresses : List (List Nat)
  FromBlock : Option Nat
  ToBlock : Option Nat
  Topics : List (List (List Nat))
deriving DecidableEq

/-- events.InMemoryEventLog (inmemory.go). -/
structure InMemoryEventLog where
  filter : FilterQuery
  blockSlice : BlockSlice
deriving DecidableEq

/-- events.NewInMemoryEventLog (inmemory.go). -/
def NewInMemoryEventLog (from_ : Nat) (filter : FilterQuery) : InMemoryEventLog :=
  ⟨filter, EmptyBlockSlice from_⟩

/-- InMemoryEventLog.FirstBlock (inmemory.go). -/
def InMemoryEventLog.FirstBlock (l : InMemoryEventLog) : Nat := l.blockSlice.Start

/-- InMemoryEventLog.NextBlock (inmemory.go). -/
def InMemoryEventLog.NextBlock (l : InMemoryEventLog) : Nat := l.blockSlice.End

/-- The message sequence produced by InMemoryEventLog.stream (inmemory.go),
cancellation aside: copy the slice, `DeleteBeforeBlock(from)` on the copy,
one Append per remaining block, then one SetNext carrying `NextBlock()`;
the producer then returns a nil error. -/
def InMemoryEventLog.streamMessages (l : InMemoryEventLog) (from_ : Nat) : List Message :=
  let b := l.blockSlice.DeleteBeforeBlock from_
  b.Blocks.map mkAppend ++ [mkSetNext l.NextBlock]

/-- The synchronous part of InMemoryEventLog.Stream (inmemory.go): it
performs no precondition check at all, always starts the producer goroutine
and returns the subscription; the value carried is the full producer
output. -/
def InMemoryEventLog.Stream (l : InMemoryEventLog) (from_ : Nat) : Except String (List Message) :=
  Except.ok (l.streamMessages from_)

/-- events.LiveEventLog (the source file defining it accompanies
examples/cmd/erc20stream in the repository); only the eventlog component
matters for the synchronous precondition check, the chain streamer side is
driven by the network. -/
structure LiveEventLog where
  eventlog : InMemoryEventLog
deriving DecidableEq

/-- The synchronous part of LiveEventLog.Stream: fails with a misuse error
when `from < eventlog.FirstBlock()` before any goroutine is spawned;
otherwise the producer is started (`ok`). -/
def LiveEventLog.Stream (l : LiveEventLog) (from_ : Nat) : Except String Unit :=
  if from_ < l.eventlog.FirstBlock then
    Except.error "from below FirstBlock"
  else
    Except.ok ()

/-! ## Snapshot codec (second half of chainstreamer.go, proto schema in
proto/events)

Proto messages are modelled structurally; `bytes` fields as `List Nat`,
`string` fields as `String`.  `common.BytesToAddress`/`BytesToHash`
right-align into a fixed width, cropping from the left when too long and
left-padding with zeros when too short. -/

/-- go-ethereum's right-aligned fixed-width byte conversion
(`common.BytesToAddress` with w = 20, `common.BytesToHash` with w = 32). -/
def bytesToFixed (w : Nat) (bs : List Nat) : List Nat :=
  if w ≤ bs.length then bs.drop (bs.length - w)
  else List.replicate (w - bs.length) 0 ++ bs

/-- common.BytesToAddress. -/
def bytesToAddress (bs : List Nat) : List Nat := bytesToFixed 20 bs

/-- common.BytesToHash. -/
def bytesToHash (bs : List Nat) : List Nat := bytesToFixed 32 bs

/-- Lowercase hex digit character of a value below 16 (code point 48-57 for
0-9, 97-102 for a-f), as produced by big.Int.Text(16). -/
def hexChar (d : Nat) : Char :=
  if d < 10 then Char.ofNat (48 + d) else Char.ofNat (87 + d)

/-- Value of a hex digit character by code point ranges; big.Int.SetString
accepts both letter cases. -/
def hexVal (c : Char) : Option Nat :=
  if 48 ≤ c.toNat ∧ c.toNat ≤ 57 then some (c.toNat - 48)
  else if 97 ≤ c.toNat ∧ c.toNat ≤ 102 then some (c.toNat - 87)
  else if 65 ≤ c.toNat ∧ c.toNat ≤ 70 then some (c.toNat - 55)
  else none

/-- Value of a decimal digit character by code point range. -/
def decVal (c : Char) : Option Nat :=
  if 48 ≤ c.toNat ∧ c.toNat ≤ 57 then some (c.toNat - 48) else none

/-- Accumulating digit parser (most significant digit first). -/
def parseDigitsAux (base : Nat) (dv : Char → Option Nat) : List Char → Nat → Option Nat
  | [], acc => some acc
  | c :: cs, acc =>
    match dv c with
    | none => none
    | some d => parseDigitsAux base dv cs (acc * base + d)

/-- big.Int.Text(16) for a non-negative value: minimal lowercase hex digits,
"0" for zero. -/
def natToHexString (n : Nat) : String :=
  if n = 0 then "0" else String.mk ((Nat.digits 16 n).reverse.map hexChar)

/-- events.BigIntToString (chainstreamer.go): nil encodes as the empty
string, otherwise `0x` plus lowercase hex. -/
def BigIntToString (x : Option Nat) : String :=
  match x with
  | none => ""
  | some n => "0x" ++ natToHexString n

/-- events.BigIntFromString (chainstreamer.go): the empty string and the
string "&lt;nil&gt;" (angle brackets around nil) decode to nil; otherwise big.Int.SetString with base 0, here modelled for the
`0x`/`0X`-prefixed hex and plain decimal forms of non-negative values. -/
def BigIntFromString (s : String) : Except String (Option Nat) :=
  if s = "" ∨ s = "<nil>" then Except.ok none
  else
    match s.toList with
    | c0 :: c1 :: rest =>
      if c0 = '0' ∧ (c1 = 'x' ∨ c1 = 'X') ∧ rest ≠ [] then
        match parseDigitsAux 16 hexVal rest 0 with
        | none => Except.error "could not parse big int"
        | some n => Except.ok (some n)
      else
        match parseDigitsAux 10 decVal (c0 :: c1 :: rest) 0 with
        | none => Except.error "could not parse big int"
        | some n => Except.ok (some n)
    | ds =>
      match parseDigitsAux 10 decVal ds 0 with
      | none => Except.error "could not parse big int"
      | some n => Except.ok (some n)

/-- proto message Event (proto/events schema). -/
structure EventProto where
  address : List Nat
  topics : List (List Nat)
  data : List Nat
  block_number : Nat
  block_hash : List Nat
  index : Nat
  tx_hash : List Nat
  tx_index : Nat
  tx_data : List Nat
  tx_value : String
  tx_from : List Nat
  tx_gas : Nat
deriving DecidableEq

/-- proto message Block. -/
structure BlockProto where
  number : Nat
  hash : List Nat
  events : List EventProto
deriving DecidableEq

/-- proto message BlockSlice.  The repeated Block field holds message
pointers; `none` models a nil entry (which the Go encoder can leave
behind, see `BlockSliceToProto`). -/
structure BlockSliceProto where
  start : Nat
  end_ : Nat
  distance_from_head : Nat
  blocks : List (Option BlockProto)
deriving DecidableEq

/-- proto message FilterQuery (the nested Topic message is just a byte-list
wrapper and is flattened here). -/
structure FilterQueryProto where
  addresses : List (List Nat)
  from_block : String
  to_block : String
  topics : List (List (List Nat))
deriving DecidableEq

/-- proto message EventLogFile. -/
structure EventLogFileProto where
  filter : FilterQueryProto
  block_slice : BlockSliceProto
deriving DecidableEq

/-- events.EventToProto (chainstreamer.go).  `Address.Bytes()` and
`Hash.Bytes()` are the identity in this byte-list model. -/
def EventToProto (e : Event) : EventProto :=
  { address := e.Address
    topics := e.Topics
    data := e.Data
    block_number := e.BlockNumber
    block_hash := e.BlockHash
    index := e.Index
    tx_hash := e.TxHash
    tx_index := e.TxIndex
    tx_data := e.TxData
    tx_value := BigIntToString e.TxValue
    tx_from := e.TxFrom
    tx_gas := e.TxGas }

/-- events.EventFromProto (chainstreamer.go): validates the address length
(exactly 20 bytes), parses the tx value, and right-aligns every hash. -/
def EventFromProto (pb : EventProto) : Except String Event :=
  if pb.address.length ≠ 20 then Except.error "invalid address"
  else
    match BigIntFromString pb.tx_value with
    | Except.error e => Except.error e
    | Except.ok txValue =>
      Except.ok
        { Address := bytesToAddress pb.address
          Topics := pb.topics.map bytesToHash
          Data := pb.data
          BlockNumber := pb.block_number
          BlockHash := bytesToHash pb.block_hash
          Index := pb.index
          TxHash := bytesToHash pb.tx_hash
          TxIndex := pb.tx_index
          TxData := pb.tx_data
          TxValue := txValue
          TxFrom := bytesToAddress pb.tx_from
          TxGas := pb.tx_gas }

/-- events.BlockToProto (chainstreamer.go). -/
def BlockToProto (b : Block) : BlockProto :=
  { number := b.Number
    hash := b.Hash
    events := b.Events.map EventToProto }

/-- events.BlockFromProto (chainstreamer.go); decoding a nil Block pointer
dereferences it (a panic, modelled as an error).  The loop over events
propagates the first decode error. -/
def decodeEvents : List EventProto → Except String (List Event)
  | [] => Except.ok []
  | pbe :: rest =>
    match EventFromProto pbe with
    | Except.error e => Except.error e
    | Except.ok ev =>
      match decodeEvents rest with
      | Except.error e => Except.error e
      | Except.ok evs => Except.ok (ev :: evs)

/-- events.BlockFromProto (chainstreamer.go). -/
def BlockFromProto (pb : BlockProto) : Except String Block :=
  match decodeEvents pb.events with
  | Except.error e => Except.error e
  | Except.ok evs =>
    Except.ok { Number := pb.number, Hash := bytesToHash pb.hash, Events := evs }

/-- The block loop of events.BlockSliceToProto (chainstreamer.go): the output
array is pre-allocated at full length, the loop breaks at the first block
with `Number >= End`, leaving that slot and every later one nil. -/
def encodeBlocksTo (endB : Nat) : List Block → List (Option BlockProto)
  | [] => []
  | b :: rest =>
    if endB ≤ b.Number then none :: List.replicate rest.length none
    else some (BlockToProto b) :: encodeBlocksTo endB rest

/-- events.BlockSliceToProto (chainstreamer.go). -/
def BlockSliceToProto (bs : BlockSlice) : BlockSliceProto :=
  { start := bs.Start
    end_ := bs.End
    distance_from_head := bs.DistanceFromHead
    blocks := encodeBlocksTo bs.End bs.Blocks }

/-- The block loop of events.BlockSliceFromProto: decodes each entry,
propagating errors; a nil entry panics inside BlockFromProto (modelled as
an error). -/
def decodeBlocks : List (Option BlockProto) → Except String (List Block)
  | [] => Except.ok []
  | none :: _ => Except.error "nil Block message"
  | some pb :: rest =>
    match BlockFromProto pb with
    | Except.error e => Except.error e
    | Except.ok b =>
      match decodeBlocks rest with
      | Except.error e => Except.error e
      | Except.ok bs => Except.ok (b :: bs)

/-- events.BlockSliceFromProto (chainstreamer.go). -/
def BlockSliceFromProto (pb : BlockSliceProto) : Except String BlockSlice :=
  match decodeBlocks pb.blocks with
  | Except.error e => Except.error e
  | Except.ok blocks =>
    Except.ok
      { Start := pb.start
        End := pb.end_
        DistanceFromHead := pb.distance_from_head
        Blocks := blocks }

/-- events.FilterQueryToProto (chainstreamer.go). -/
def FilterQueryToProto (q : FilterQuery) : FilterQueryProto :=
  { addresses := q.Addresses
    from_block := BigIntToString q.FromBlock
    to_block := BigIntToString q.ToBlock
    topics := q.Topics }

/-- events.FilterQueryFromProto (chainstreamer.go): no length validation,
bytes are right-aligned into addresses and hashes. -/
def FilterQueryFromProto (pb : FilterQueryProto) : Except String FilterQuery :=
  match BigIntFromString pb.from_block with
  | Except.error e => Except.error e
  | Except.ok fromBlock =>
    match BigIntFromString pb.to_block with
    | Except.error e => Except.error e
    | Except.ok toBlock =>
      Except.ok
        { Addresses := pb.addresses.map bytesToAddress
          FromBlock := fromBlock
          ToBlock := toBlock
          Topics := pb.topics.map (fun t => t.map bytesToHash) }

/-- InMemoryEventLog.ToProto (inmemory.go). -/
def InMemoryEventLog.ToProto (l : InMemoryEventLog) : EventLogFileProto :=
  { filter := FilterQueryToProto l.filter
    block_slice := BlockSliceToProto l.blockSlice }

/-- events.InMemoryEventLogFromProto (inmemory.go). -/
def InMemoryEventLogFromProto (pb : EventLogFileProto) : Except String InMemoryEventLog :=
  match FilterQueryFromProto pb.filter with
  | Except.error e => Except.error e
  | Except.ok filter =>
    match BlockSliceFromProto pb.block_slice with
    | Except.error e => Except.error e
    | Except.ok blockSlice => Except.ok ⟨filter, blockSlice⟩

/-- Well-formedness of an Event for the codec: fixed-width byte fields have
their exact width (true of every event the program builds, since Go's
Address and Hash are fixed-size arrays). -/
def EventWF (e : Event) : Prop :=
  e.Address.length = 20 ∧
  (∀ t ∈ e.Topics, t.length = 32) ∧
  e.BlockHash.length = 32 ∧
  e.TxHash.length = 32 ∧
  e.TxFrom.length = 20

instance (e : Event) : Decidable (EventWF e) := by
  unfold EventWF; infer_instance

/-- Well-formedness of a filter for the codec: addresses are 20 bytes and
topic hashes 32 bytes. -/
def FilterQueryWF (q : FilterQuery) : Prop :=
  (∀ a ∈ q.Addresses, a.length = 20) ∧
  (∀ t ∈ q.Topics, ∀ h ∈ t, h.length = 32)

instance (q : FilterQuery) : Decidable (FilterQueryWF q) := by
  unfold FilterQueryWF; infer_instance

/-- A valid EventLogFile in the sense of spec section 4.6: well-formed
filter, every stored block inside the window (`Number < End`) with a
32-byte hash and well-formed events. -/
def EventLogFileWF (l : InMemoryEventLog) : Prop :=
  FilterQueryWF l.filter ∧
  ∀ b ∈ l.blockSlice.Blocks,
    b.Number < l.blockSlice.End ∧ b.Hash.length = 32 ∧ ∀ e ∈ b.Events, EventWF e

instance (l : InMemoryEventLog) : Decidable (EventLogFileWF l) := by
  unfold EventLogFileWF; infer_instance

/-! ## Helper lemmas -/

/-- On a strictly increasing block list, dropping the prefix of numbers
below `n` is the same as filtering for numbers at least `n`. -/
theorem dropWhile_lt_eq_filter (n : Nat) (l : List Block)
    (h : l.Pairwise (fun x y => x.Number < y.Number)) :
    l.dropWhile (fun blk => blk.Number < n) = l.filter (fun blk => n ≤ blk.Number) := by
  induction l with
  | nil => rfl
  | cons a xs ih =>
    rw [List.pairwise_cons] at h
    by_cases ha : a.Number < n
    · rw [List.dropWhile_cons_of_pos (by simpa using ha),
        List.filter_cons_of_neg (by simpa using (by omega : ¬ n ≤ a.Number))]
      exact ih h.2
    · have hxs : xs.filter (fun b => decide (n ≤ b.Number)) = xs := by
        refine List.filter_eq_self.mpr (fun x hx => ?_)
        have := h.1 x hx
        simp only [decide_eq_true_eq]
        omega
      rw [List.dropWhile_cons_of_neg (by simpa using ha),
        List.filter_cons_of_pos (by simpa using (by omega : n ≤ a.Number)), hxs]

/-- On a strictly increasing block list, dropping from the back the suffix
of numbers at least `n` is the same as filtering for numbers below `n`. -/
theorem revDropWhile_ge_eq_filter (n : Nat) (l : List Block)
    (h : l.Pairwise (fun x y => x.Number < y.Number)) :
    ((l.reverse).dropWhile (fun blk => n ≤ blk.Number)).reverse
      = l.filter (fun blk => blk.Number < n) := by
  induction l using List.reverseRecOn with
  | nil => rfl
  | append_singleton xs a ih =>
    rw [List.pairwise_append] at h
    rw [List.reverse_append, List.filter_append]
    simp only [List.reverse_singleton, List.singleton_append]
    by_cases ha : n ≤ a.Number
    · rw [List.dropWhile_cons_of_pos (by simpa using ha)]
      rw [ih h.1]
      rw [List.filter_cons_of_neg (by simpa using (by omega : ¬ a.Number < n))]
      simp
    · rw [List.dropWhile_cons_of_neg (by simpa using ha)]
      have hxs : xs.filter (fun b => decide (b.Number < n)) = xs := by
        refine List.filter_eq_self.mpr (fun x hx => ?_)
        have := h.2.2 x hx a (List.mem_singleton_self a)
        simp only [decide_eq_true_eq]
        omega
      rw [List.filter_cons_of_pos (by simpa using (by omega : a.Number < n))]
      simp [hxs]

/-- Dropping from the back after appending one block `blk` with
`n ≤ blk.Number` to a list entirely below `n` removes exactly `blk`. -/
theorem revDropWhile_append_last (n : Nat) (l : List Block) (blk : Block)
    (h : ∀ x ∈ l, x.Number < n) (hblk : n ≤ blk.Number) :
    (((l ++ [blk]).reverse).dropWhile (fun b => n ≤ b.Number)).reverse = l := by
  rw [List.reverse_append]
  simp only [List.reverse_singleton, List.singleton_append]
  rw [List.dropWhile_cons_of_pos (by simpa using hblk)]
  have hsame : l.reverse.dropWhile (fun b => decide (n ≤ b.Number)) = l.reverse := by
    cases hr : l.reverse with
    | nil => rfl
    | cons y ys =>
      have hy : y ∈ l := by
        have hm : y ∈ l.reverse := by rw [hr]; exact List.mem_cons_self y ys
        exact List.mem_reverse.mp hm
      have := h y hy
      rw [List.dropWhile_cons_of_neg (by simpa using (by omega : ¬ n ≤ y.Number))]
  rw [hsame, List.reverse_reverse]

/-- `matchLoop` never reports the shorter-fetch error (that check happens
before the loop). -/
theorem matchLoop_ne_shorterFetch (newBlocks : List Block) :
    ∀ (obs : List Block) (i lastGood : Nat),
      matchLoop newBlocks obs i lastGood ≠ Except.error MatchErr.ShorterFetch := by
  intro obs
  induction obs with
  | nil => intro i lastGood h; exact absurd h (by simp [matchLoop])
  | cons ob rest ih =>
    intro i lastGood h
    rw [matchLoop] at h
    cases hb : newBlocks[i]? with
    | none => rw [hb] at h; exact MatchErr.noConfusion (Except.error.inj h)
    | some nb =>
      rw [hb] at h
      dsimp only at h
      by_cases hh : ob.Hash = nb.Hash
      · rw [if_pos hh] at h
        exact ih (i + 1) nb.Number h
      · rw [if_neg hh] at h
        exact Except.noConfusion h

/-- When the new block list is long enough (at least `i` plus the remaining
old blocks), `matchLoop` never runs off the end. -/
theorem matchLoop_no_oor (newBlocks : List Block) :
    ∀ (obs : List Block) (i lastGood : Nat), i + obs.length ≤ newBlocks.length →
      matchLoop newBlocks obs i lastGood ≠ Except.error MatchErr.IndexOutOfRange := by
  intro obs
  induction obs with
  | nil => intro i lastGood _ h; exact absurd h (by simp [matchLoop])
  | cons ob rest ih =>
    intro i lastGood hlen h
    rw [matchLoop] at h
    cases hb : newBlocks[i]? with
    | none =>
      have : i < newBlocks.length := by simp at hlen; omega
      rw [List.getElem?_eq_getElem this] at hb
      exact Option.noConfusion hb
    | some nb =>
      rw [hb] at h
      dsimp only at h
      by_cases hh : ob.Hash = nb.Hash
      · rw [if_pos hh] at h
        refine ih (i + 1) nb.Number ?_ h
        simp at hlen ⊢
        omega
      · rw [if_neg hh] at h
        exact Except.noConfusion h

/-- Every message `emitPhase` adds beyond the ones passed in is an Append or
a SetNext. -/
theorem emitPhase_msgs (history : BlockSlice) (next : Nat) (b : BlockSlice)
    (msgs : List Message) :
    ∀ m ∈ (emitPhase history next b msgs).msgs,
      m ∈ msgs ∨ m.action = Action.Append ∨ m.action = Action.SetNext := by
  intro m hm
  rw [emitPhase] at hm
  cases hc : (history.Concat (b.DeleteBeforeBlock next)) with
  | error e =>
    simp only [hc] at hm
    exact Or.inl hm
  | ok h1 =>
    simp only [hc] at hm
    simp only [List.mem_append, List.mem_map, List.mem_singleton] at hm
    rcases hm with (hm | ⟨blk, _, rfl⟩) | rfl
    · exact Or.inl hm
    · exact Or.inr (Or.inl rfl)
    · exact Or.inr (Or.inr rfl)

/-- For in-range operands with no underflow, the wrapping subtraction is
plain subtraction. -/
theorem sub64_eq_sub (a b : Nat) (hba : b ≤ a) (ha : a < 2 ^ 64) :
    sub64 a b = a - b := by
  rw [sub64, Nat.mod_eq_of_lt (by omega : b < 2 ^ 64)]
  have h : a + (2 ^ 64 - b) = 2 ^ 64 + (a - b) := by omega
  rw [h, Nat.add_mod_left, Nat.mod_eq_of_lt (by omega)]

/-- For in-range operands that do underflow, the wrapping subtraction wraps
past zero. -/
theorem sub64_eq_wrap (a b : Nat) (hab : a < b) (hb : b < 2 ^ 64) :
    sub64 a b = a + 2 ^ 64 - b := by
  rw [sub64, Nat.mod_eq_of_lt (by omega : b < 2 ^ 64)]
  have h : a + (2 ^ 64 - b) = a + 2 ^ 64 - b := by omega
  rw [h, Nat.mod_eq_of_lt (by omega)]

/-! ## Claim C1 -/

/-- Claim C1 as frozen is false: with `start = 1`, `end = 5`,
`distance_from_head = 1` and `n = 3`, `Rollback(3)` succeeds but
`distance_from_head` becomes `2^64 - 1` — the wrapping uint64 result — and
not the saturating value `1 - (5 - 3) = 0` the claim requires. -/
theorem c1_counterexample :
    BlockSlice.Rollback ⟨1, 5, 1, []⟩ 3
      = Except.ok ⟨1, 3, 18446744073709551615, []⟩ ∧
    (18446744073709551615 : Nat) ≠ (1 : Nat) - (5 - 3) := by
  constructor
  · decide
  · decide

/-- Claim C1 (amended): for every BlockSlice with strictly increasing block
numbers and `start ≤ n ≤ end`, `Rollback(n)` succeeds, drops exactly the
blocks with `number ≥ n`, sets `end` to `n`, and updates
`distance_from_head` to `distance_from_head - (old_end - n)` computed in
wrapping unsigned 64-bit arithmetic (underflow wraps past zero; it does not
saturate at zero). -/
theorem c1_rollback_behaviour (b : BlockSlice) (n : Nat)
    (hpw : b.Blocks.Pairwise (fun x y => x.Number < y.Number))
    (h1 : b.Start ≤ n) (h2 : n ≤ b.End) (h3 : b.End < 2 ^ 64) :
    b.Rollback n = Except.ok
      { Start := b.Start
        End := n
        DistanceFromHead := sub64 b.DistanceFromHead (b.End - n)
        Blocks := b.Blocks.filter (fun blk => blk.Number < n) } := by
  rw [BlockSlice.Rollback, if_neg (by omega), if_neg (by omega),
    BlockSlice.DeleteFromBlock, revDropWhile_ge_eq_filter n b.Blocks hpw,
    sub64_eq_sub b.End n h2 h3]

/-- Witness for C1: a concrete slice with `start = 1 ≤ 3 ≤ 5 = end`. -/
theorem c1_witness :
    BlockSlice.Rollback ⟨1, 5, 7, [⟨2, [9], []⟩, ⟨4, [8], []⟩]⟩ 3
      = Except.ok
        { Start := 1
          End := 3
          DistanceFromHead := sub64 7 (5 - 3)
          Blocks := ([⟨2, [9], []⟩, ⟨4, [8], []⟩] : List Block).filter
            (fun blk => blk.Number < 3) } :=
  c1_rollback_behaviour ⟨1, 5, 7, [⟨2, [9], []⟩, ⟨4, [8], []⟩]⟩ 3
    (by decide) (by decide) (by decide) (by decide)

/-! ## Claim C2 -/

/-- Claim C2 as frozen is false: for the slice `start 0, end 1,
distance_from_head 5, no blocks` and a block with number 1, Append then
Rollback(1) yields `distance_from_head = 2^64 - 1`, not the original 5
(Append clears it to 0 and Rollback's wrapping subtraction underflows). -/
theorem c2_counterexample :
    (BlockSlice.Append ⟨0, 1, 5, []⟩ ⟨1, [], []⟩).bind
        (fun s1 => s1.Rollback 1)
      = Except.ok ⟨0, 1, 18446744073709551615, []⟩ ∧
    (⟨0, 1, 18446744073709551615, []⟩ : BlockSlice) ≠ ⟨0, 1, 5, []⟩ := by
  constructor
  · decide
  · decide

/-- Claim C2 (amended): for every BlockSlice satisfying the slice invariants
and every block `blk` with `blk.number ≥ end` (and `blk.number + 1` within
uint64 range), Append then Rollback(old end) restores `start`, `end` and
`blocks` exactly; `distance_from_head` is not restored — it becomes
`0 - (blk.number + 1 - old_end)` in wrapping unsigned 64-bit arithmetic,
because Append clears it and Rollback's subtraction underflows. -/
theorem c2_append_rollback (s : BlockSlice) (blk : Block)
    (hse : s.Start ≤ s.End)
    (hb : ∀ x ∈ s.Blocks, x.Number < s.End)
    (hn : s.End ≤ blk.Number) (hlt : blk.Number + 1 < 2 ^ 64) :
    (s.Append blk).bind (fun s1 => s1.Rollback s.End)
      = Except.ok { s with DistanceFromHead := sub64 0 (blk.Number + 1 - s.End) } := by
  rw [BlockSlice.Append, if_neg (by omega)]
  show BlockSlice.Rollback _ s.End = _
  rw [BlockSlice.Rollback]
  rw [if_neg (by simp only; rw [Nat.mod_eq_of_lt hlt]; omega)]
  rw [if_neg (by simp only; omega)]
  rw [BlockSlice.DeleteFromBlock]
  simp only
  rw [revDropWhile_append_last s.End s.Blocks blk hb hn]
  rw [Nat.mod_eq_of_lt hlt, sub64_eq_sub (blk.Number + 1) s.End (by omega) hlt]

/-- Witness for C2: the empty slice at `[0, 1)` and a block numbered 1. -/
theorem c2_witness :
    (BlockSlice.Append ⟨0, 1, 5, []⟩ ⟨1, [], []⟩).bind
        (fun s1 => s1.Rollback 1)
      = Except.ok { (⟨0, 1, 5, []⟩ : BlockSlice) with
          DistanceFromHead := sub64 0 (1 + 1 - 1) } :=
  c2_append_rollback ⟨0, 1, 5, []⟩ ⟨1, [], []⟩
    (by decide) (by decide) (by decide) (by decide)

/-! ## Claim C4 -/

/-- Claim C4 as frozen is false: `DeleteBeforeBlock(3)` on a slice with
`start = 5` moves `start` backward to 3. -/
theorem c4_counterexample :
    (BlockSlice.DeleteBeforeBlock ⟨5, 5, 0, []⟩ 3).Start = 3 ∧ (3 : Nat) < 5 := by
  constructor
  · decide
  · decide

/-- Claim C4 (amended): `DeleteBeforeBlock(n)` sets `start` to exactly `n`,
unconditionally; hence `start` does not decrease precisely when
`n ≥ start`; for `n < start` it moves `start` backward. -/
theorem c4_deleteBeforeBlock_start (b : BlockSlice) (n : Nat) :
    (b.DeleteBeforeBlock n).Start = n ∧
    (b.Start ≤ n → b.Start ≤ (b.DeleteBeforeBlock n).Start) := by
  refine ⟨rfl, fun h => ?_⟩
  rw [BlockSlice.DeleteBeforeBlock]
  exact h

/-- Witness for C4: a call with `n = 7` at `start = 5` keeps start moving
forward. -/
theorem c4_witness :
    (BlockSlice.DeleteBeforeBlock ⟨5, 9, 0, []⟩ 7).Start = 7 ∧
    (5 : Nat) ≤ (BlockSlice.DeleteBeforeBlock ⟨5, 9, 0, []⟩ 7).Start :=
  ⟨(c4_deleteBeforeBlock_start ⟨5, 9, 0, []⟩ 7).1,
    (c4_deleteBeforeBlock_start ⟨5, 9, 0, []⟩ 7).2 (by decide)⟩

/-! ## Claim C3 -/

/-- Claim C3 as frozen is false for the in-memory EventLog: with
`FirstBlock() = 5`, `Stream(done, 3)` does not fail — it synchronously
returns a subscription and the producer replays the stored block and the
final SetNext. -/
theorem c3_counterexample :
    InMemoryEventLog.Stream ⟨⟨[], none, none, []⟩, ⟨5, 6, 0, [⟨5, [1], []⟩]⟩⟩ 3
      = Except.ok [mkAppend ⟨5, [1], []⟩, mkSetNext 6] ∧
    (3 : Nat) < InMemoryEventLog.FirstBlock
      ⟨⟨[], none, none, []⟩, ⟨5, 6, 0, [⟨5, [1], []⟩]⟩⟩ := by
  constructor
  · decide
  · decide

/-- Claim C3 (amended): only `LiveEventLog.Stream` enforces the
precondition — for `from < FirstBlock()` it fails synchronously with a
misuse error and starts no producer; `InMemoryEventLog.Stream` performs no
such check and synchronously returns a replay subscription for every
`from`. -/
theorem c3_stream_precondition (l : LiveEventLog) (from_ : Nat)
    (il : InMemoryEventLog) (n : Nat) :
    (from_ < l.eventlog.FirstBlock →
      l.Stream from_ = Except.error "from below FirstBlock") ∧
    il.Stream n = Except.ok (il.streamMessages n) := by
  constructor
  · intro h
    rw [LiveEventLog.Stream, if_pos h]
  · rfl

/-- Witness for C3: a live log over `[5, 6)` rejects `from = 3` while the
in-memory log accepts it. -/
theorem c3_witness :
    LiveEventLog.Stream ⟨⟨⟨[], none, none, []⟩, ⟨5, 6, 0, []⟩⟩⟩ 3
      = Except.error "from below FirstBlock" ∧
    InMemoryEventLog.Stream ⟨⟨[], none, none, []⟩, ⟨5, 6, 0, []⟩⟩ 3
      = Except.ok
        (InMemoryEventLog.streamMessages ⟨⟨[], none, none, []⟩, ⟨5, 6, 0, []⟩⟩ 3) :=
  ⟨(c3_stream_precondition ⟨⟨⟨[], none, none, []⟩, ⟨5, 6, 0, []⟩⟩⟩ 3
      ⟨⟨[], none, none, []⟩, ⟨5, 6, 0, []⟩⟩ 3).1 (by decide),
    (c3_stream_precondition ⟨⟨⟨[], none, none, []⟩, ⟨5, 6, 0, []⟩⟩⟩ 3
      ⟨⟨[], none, none, []⟩, ⟨5, 6, 0, []⟩⟩ 3).2⟩

/-! ## Claim C9 -/

/-- Claim C9: when the fetched batch ends before the retained history
(`new.end < history.end`), MatchBlocks fails with the shorter-fetch error,
`process` returns that error with no Rollback or Append emitted and the
state untouched; when `new.end ≥ history.end` the comparison proceeds (the
shorter-fetch error cannot occur). -/
theorem c9_shorter_fetch (frm next : Nat) (history b : BlockSlice) :
    (b.End < history.End →
      chainProcess frm history next b
        = ⟨history, next, [], some (ProcErr.Match MatchErr.ShorterFetch)⟩) ∧
    (history.End ≤ b.End →
      MatchBlocks b history ≠ Except.error MatchErr.ShorterFetch) := by
  constructor
  · intro h
    rw [chainProcess, MatchBlocks, if_pos h]
  · intro h
    rw [MatchBlocks, if_neg (by omega)]
    exact matchLoop_ne_shorterFetch _ _ _ _

/-- Witness for C9: concrete slices on both sides of the precondition. -/
theorem c9_witness :
    chainProcess 0 ⟨0, 2, 0, []⟩ 0 ⟨0, 1, 0, []⟩
      = ⟨⟨0, 2, 0, []⟩, 0, [], some (ProcErr.Match MatchErr.ShorterFetch)⟩ ∧
    MatchBlocks ⟨0, 2, 0, []⟩ ⟨0, 1, 0, []⟩ ≠ Except.error MatchErr.ShorterFetch :=
  ⟨(c9_shorter_fetch 0 0 ⟨0, 2, 0, []⟩ ⟨0, 1, 0, []⟩).1 (by decide),
    (c9_shorter_fetch 0 0 ⟨0, 1, 0, []⟩ ⟨0, 2, 0, []⟩).2 (by decide)⟩

/-! ## Claim C10 -/

/-- Claim C10: MatchBlocks pairs blocks by position with no bounds check on
the new slice; it cannot run out of range when the new slice has at least
as many blocks as the overlap-restricted history, and there are inputs
(history holding more overlap blocks than the fetch, with the common prefix
agreeing) where the index into new.Blocks is out of range — a Go runtime
panic. -/
theorem c10_matchBlocks_bounds :
    (∀ new old : BlockSlice,
        (old.DeleteBeforeBlock new.Start).Blocks.length ≤ new.Blocks.length →
        MatchBlocks new old ≠ Except.error MatchErr.IndexOutOfRange) ∧
    MatchBlocks ⟨0, 2, 0, [⟨0, [0], []⟩]⟩ ⟨0, 2, 0, [⟨0, [0], []⟩, ⟨1, [1], []⟩]⟩
      = Except.error MatchErr.IndexOutOfRange := by
  constructor
  · intro new old hlen
    rw [MatchBlocks]
    by_cases h : new.End < old.End
    · rw [if_pos h]
      exact fun hc => MatchErr.noConfusion (Except.error.inj hc)
    · rw [if_neg h]
      exact matchLoop_no_oor _ _ 0 0 (by simpa using hlen)
  · decide

/-- Witness for C10: the sufficiency direction at a concrete pair where the
new slice covers the restricted history. -/
theorem c10_witness :
    MatchBlocks ⟨0, 2, 0, [⟨0, [0], []⟩, ⟨1, [1], []⟩]⟩ ⟨0, 2, 0, [⟨0, [0], []⟩]⟩
      ≠ Except.error MatchErr.IndexOutOfRange :=
  c10_matchBlocks_bounds.1 _ _ (by decide)

/-! ## Claim C5 -/

/-- Claim C5: every Rollback message `process` emits carries a number at
least the subscription's lower bound `from` — the rollback point is clamped
by `if lastGoodBlock+1 < from { lastGoodBlock = from - 1 }` so no Rollback
below `from` is ever emitted. -/
theorem c5_rollback_floor (frm next : Nat) (history b : BlockSlice)
    (hfrm : frm < 2 ^ 64) :
    ∀ m ∈ (chainProcess frm history next b).msgs,
      m.action = Action.Rollback → frm ≤ m.Number := by
  intro m hm hract
  rw [chainProcess] at hm
  cases hmb : MatchBlocks b history with
  | error e =>
    rw [hmb] at hm
    simp at hm
  | ok p =>
    obtain ⟨okb, lg0⟩ := p
    rw [hmb] at hm
    cases okb with
    | true =>
      dsimp only at hm
      rcases emitPhase_msgs history next b [] m hm with h | h | h
      · simp at h
      · rw [hract] at h
        exact absurd h (by decide)
      · rw [hract] at h
        exact absurd h (by decide)
    | false =>
      dsimp only at hm
      have hfloor : frm ≤ ((if (lg0 + 1) % 2 ^ 64 < frm then sub64 frm 1 else lg0) + 1) % 2 ^ 64 := by
        by_cases hc : (lg0 + 1) % 2 ^ 64 < frm
        · rw [if_pos hc]
          have h1 : 1 ≤ frm := by omega
          rw [sub64_eq_sub frm 1 h1 hfrm, Nat.sub_add_cancel h1,
            Nat.mod_eq_of_lt hfrm]
        · rw [if_neg hc]
          omega
      cases hrb : history.Rollback
          (((if (lg0 + 1) % 2 ^ 64 < frm then sub64 frm 1 else lg0) + 1) % 2 ^ 64) with
      | error e =>
        rw [hrb] at hm
        simp at hm
      | ok h1 =>
        rw [hrb] at hm
        dsimp only at hm
        by_cases hlt : ((if (lg0 + 1) % 2 ^ 64 < frm then sub64 frm 1 else lg0) + 1) % 2 ^ 64 < b.Start
        · rw [if_pos hlt] at hm
          dsimp only at hm
          rw [List.mem_singleton] at hm
          rw [hm]
          exact hfloor
        · rw [if_neg hlt] at hm
          rcases emitPhase_msgs h1 _ b [mkRollback _] m hm with h | h | h
          · rw [List.mem_singleton] at h
            rw [h]
            exact hfloor
          · rw [hract] at h
            exact absurd h (by decide)
          · rw [hract] at h
            exact absurd h (by decide)

/-- Witness for C5: with `from = 5` and a history/batch pair that mismatch
at block 6, the emitted Rollback carries number 5 ≥ from. -/
theorem c5_witness :
    (5 : Nat) ≤ (mkRollback 5).Number :=
  c5_rollback_floor 5 7 ⟨5, 8, 0, [⟨6, [1], []⟩]⟩ ⟨5, 9, 0, [⟨6, [2], []⟩]⟩
    (by decide) (mkRollback 5) (by decide) (by decide)

/-! ## Claim C6 -/

/-- Claim C6: per polling iteration the fetched range is
`fetch_from = max(from, next - batch_overlap)` (the wrapped subtraction is
discarded exactly when the guard `next < from + batch_overlap` clamps to
`from`, so the underflow never shows) and
`fetch_to = fetch_from + fetch_batch_size - 1` (after defaulting a zero
batch size to 2000); the clamp applies exactly when
`next < from + batch_overlap`.  Hypotheses keep the guard addition and the
upper bound inside uint64 range. -/
theorem c6_fetch_range (frm next batchOverlap batchSize : Nat)
    (h1 : frm + batchOverlap < 2 ^ 64) (h2 : next < 2 ^ 64)
    (h3 : max frm (next - batchOverlap)
        + (if batchSize = 0 then 2000 else batchSize) ≤ 2 ^ 64) :
    fetchFromFor frm next batchOverlap = max frm (next - batchOverlap) ∧
    fetchToFor (fetchFromFor frm next batchOverlap) batchSize
      = max frm (next - batchOverlap)
        + (if batchSize = 0 then 2000 else batchSize) - 1 ∧
    (next < frm + batchOverlap → fetchFromFor frm next batchOverlap = frm) ∧
    (frm + batchOverlap ≤ next →
      fetchFromFor frm next batchOverlap = next - batchOverlap) := by
  have hmod : (frm + batchOverlap) % 2 ^ 64 = frm + batchOverlap :=
    Nat.mod_eq_of_lt h1
  have hmain : fetchFromFor frm next batchOverlap = max frm (next - batchOverlap) := by
    rw [fetchFromFor, hmod]
    by_cases hc : next < frm + batchOverlap
    · rw [if_pos hc]
      exact (Nat.max_eq_left (by omega)).symm
    · rw [if_neg hc]
      rw [sub64_eq_sub next batchOverlap (by omega) h2]
      exact (Nat.max_eq_right (by omega)).symm
  have hpos : 1 ≤ (if batchSize = 0 then 2000 else batchSize) := by
    by_cases hz : batchSize = 0
    · rw [if_pos hz]; omega
    · rw [if_neg hz]; omega
  refine ⟨hmain, ?_, fun h => by rw [hmain]; exact (Nat.max_eq_left (by omega)),
    fun h => by rw [hmain]; exact (Nat.max_eq_right (by omega))⟩
  rw [hmain, fetchToFor]
  rcases Nat.lt_or_ge (max frm (next - batchOverlap)
      + (if batchSize = 0 then 2000 else batchSize)) (2 ^ 64) with hc | hc
  · rw [Nat.mod_eq_of_lt hc, sub64_eq_sub _ 1 (by omega) hc]
  · have heq : max frm (next - batchOverlap)
        + (if batchSize = 0 then 2000 else batchSize) = 2 ^ 64 := by omega
    rw [heq, Nat.mod_self, sub64_eq_wrap 0 1 (by omega) (by norm_num)]
    omega

/-- Witness for C6: `from = 100`, `next = 105`, overlap 10, configured
batch size 0 (defaulted to 2000). -/
theorem c6_witness :
    fetchFromFor 100 105 10 = max 100 (105 - 10) ∧
    fetchToFor (fetchFromFor 100 105 10) 0
      = max 100 (105 - 10) + (if (0 : Nat) = 0 then 2000 else 0) - 1 := by
  have h := c6_fetch_range 100 105 10 0 (by norm_num) (by norm_num) (by norm_num)
  exact ⟨h.1, h.2.1⟩

/-! ## Claim C8 -/

/-- Claim C8: the in-memory replay emits exactly one Append per stored block
with number ≥ from (in increasing block-number order — the filtered block
numbers are pairwise increasing and the Appends follow that list), then one
SetNext carrying NextBlock(), and never emits a Rollback.  The producer then
returns a nil terminal error (cancellation, which yields the Canceled
sentinel instead, is outside this deterministic model). -/
theorem c8_replay_stream (l : InMemoryEventLog) (from_ : Nat)
    (hpw : l.blockSlice.Blocks.Pairwise (fun x y => x.Number < y.Number))
    (_hfrom : l.FirstBlock ≤ from_) :
    l.streamMessages from_
      = (l.blockSlice.Blocks.filter (fun blk => from_ ≤ blk.Number)).map mkAppend
        ++ [mkSetNext l.NextBlock] ∧
    (∀ m ∈ l.streamMessages from_, m.action ≠ Action.Rollback) ∧
    ((l.blockSlice.Blocks.filter (fun blk => from_ ≤ blk.Number)).map
        (fun blk => blk.Number)).Pairwise (fun x y => x < y) := by
  have heq : l.streamMessages from_
      = (l.blockSlice.Blocks.filter (fun blk => from_ ≤ blk.Number)).map mkAppend
        ++ [mkSetNext l.NextBlock] := by
    rw [InMemoryEventLog.streamMessages]
    rw [BlockSlice.DeleteBeforeBlock]
    dsimp only
    rw [dropWhile_lt_eq_filter from_ l.blockSlice.Blocks hpw]
  refine ⟨heq, ?_, ?_⟩
  · intro m hm
    rw [heq] at hm
    rcases List.mem_append.mp hm with h | h
    · obtain ⟨blk, _, rfl⟩ := List.mem_map.mp h
      exact fun hc => Action.noConfusion hc
    · rw [List.mem_singleton] at h
      subst h
      exact fun hc => Action.noConfusion hc
  · refine List.Pairwise.map _ (fun a b hab => hab) ?_
    exact List.Pairwise.filter _ hpw

/-- Witness for C8: a log holding blocks 5 and 7, replayed from 6. -/
theorem c8_witness :
    InMemoryEventLog.streamMessages
        ⟨⟨[], none, none, []⟩, ⟨5, 9, 0, [⟨5, [1], []⟩, ⟨7, [2], []⟩]⟩⟩ 6
      = (([⟨5, [1], []⟩, ⟨7, [2], []⟩] : List Block).filter
          (fun blk => 6 ≤ blk.Number)).map mkAppend
        ++ [mkSetNext (InMemoryEventLog.NextBlock
            ⟨⟨[], none, none, []⟩, ⟨5, 9, 0, [⟨5, [1], []⟩, ⟨7, [2], []⟩]⟩⟩)] :=
  (c8_replay_stream ⟨⟨[], none, none, []⟩, ⟨5, 9, 0, [⟨5, [1], []⟩, ⟨7, [2], []⟩]⟩⟩ 6
    (by decide) (by decide)).1

/-! ## Codec round-trip lemmas -/

/-- Right-aligning a byte list that already has the target width is the
identity. -/
theorem bytesToFixed_exact (w : Nat) (bs : List Nat) (h : bs.length = w) :
    bytesToFixed w bs = bs := by
  rw [bytesToFixed, if_pos (by omega)]
  have hz : bs.length - w = 0 := by omega
  rw [hz, List.drop_zero]

/-- Mapping the right-alignment over lists that all have the target width is
the identity. -/
theorem map_bytesToFixed_id (w : Nat) (l : List (List Nat))
    (h : ∀ t ∈ l, t.length = w) : l.map (bytesToFixed w) = l := by
  induction l with
  | nil => rfl
  | cons a as ih =>
    rw [List.map_cons, bytesToFixed_exact w a (h a (List.mem_cons_self a as)),
      ih (fun x hx => h x (List.mem_cons_of_mem a hx))]

/-- Reading back the hex digit character of any digit value below 16. -/
theorem hexVal_hexChar : ∀ d < 16, hexVal (hexChar d) = some d := by decide

/-- The accumulating hex parser undoes `map hexChar` (most significant digit
first). -/
theorem parseDigitsAux_hexChar (L : List Nat) (hL : ∀ d ∈ L, d < 16) :
    ∀ acc, parseDigitsAux 16 hexVal (L.map hexChar) acc
      = some (acc * 16 ^ L.length + Nat.ofDigits 16 L.reverse) := by
  induction L with
  | nil =>
    intro acc
    simp [parseDigitsAux, Nat.ofDigits_nil]
  | cons d ds ih =>
    intro acc
    rw [List.map_cons, parseDigitsAux,
      hexVal_hexChar d (hL d (List.mem_cons_self d ds))]
    dsimp only
    rw [ih (fun x hx => hL x (List.mem_cons_of_mem d hx)) (acc * 16 + d)]
    congr 1
    rw [List.reverse_cons, Nat.ofDigits_append, Nat.ofDigits_singleton,
      List.length_reverse, List.length_cons]
    ring

/-- Parsing the hex rendering of `n` gives back `n`. -/
theorem parse_natToHexString (n : Nat) :
    parseDigitsAux 16 hexVal (natToHexString n).toList 0 = some n := by
  rw [natToHexString]
  by_cases h0 : n = 0
  · subst h0
    decide
  · rw [if_neg h0]
    have htl : (String.mk ((Nat.digits 16 n).reverse.map hexChar)).toList
        = (Nat.digits 16 n).reverse.map hexChar := rfl
    rw [htl]
    have hbound : ∀ d ∈ (Nat.digits 16 n).reverse, d < 16 := by
      intro d hd
      exact Nat.digits_lt_base (by omega) (List.mem_reverse.mp hd)
    rw [parseDigitsAux_hexChar _ hbound 0]
    rw [List.reverse_reverse, Nat.ofDigits_digits, Nat.zero_mul, Nat.zero_add]

/-- The hex rendering of `n` is never the empty character list. -/
theorem natToHexString_toList_ne_nil (n : Nat) :
    (natToHexString n).toList ≠ [] := by
  rw [natToHexString]
  by_cases h0 : n = 0
  · subst h0
    decide
  · rw [if_neg h0]
    have : (String.mk ((Nat.digits 16 n).reverse.map hexChar)).toList
        = (Nat.digits 16 n).reverse.map hexChar := rfl
    rw [this]
    intro hc
    rw [List.map_eq_nil_iff, List.reverse_eq_nil_iff] at hc
    exact (Nat.digits_ne_nil_iff_ne_zero.mpr h0) hc

/-- The big-int codec round trip: decode after encode is the identity, with
nil mapping to the empty string and back to nil. -/
theorem bigIntFromString_toString (x : Option Nat) :
    BigIntFromString (BigIntToString x) = Except.ok x := by
  cases x with
  | none => decide
  | some n =>
    rw [BigIntToString, BigIntFromString]
    have htl : ("0x" ++ natToHexString n).toList
        = '0' :: 'x' :: (natToHexString n).toList := rfl
    have hne : ¬("0x" ++ natToHexString n = "" ∨ "0x" ++ natToHexString n = "<nil>") := by
      rintro (hc | hc)
      · have hchars := congrArg String.toList hc
        rw [htl] at hchars
        exact List.noConfusion hchars
      · have hchars := congrArg String.toList hc
        rw [htl] at hchars
        injection hchars with h1 h2
        exact absurd h1 (by decide)
    rw [if_neg hne, htl]
    dsimp only
    rw [if_pos ⟨rfl, Or.inl rfl, natToHexString_toList_ne_nil n⟩]
    rw [parse_natToHexString n]

/-- `bytesToAddress` is the identity on 20-byte lists. -/
theorem bytesToAddress_exact (bs : List Nat) (h : bs.length = 20) :
    bytesToAddress bs = bs :=
  bytesToFixed_exact 20 bs h

/-- `bytesToHash` is the identity on 32-byte lists. -/
theorem bytesToHash_exact (bs : List Nat) (h : bs.length = 32) :
    bytesToHash bs = bs :=
  bytesToFixed_exact 32 bs h

/-- Mapping `bytesToAddress` over exact-width lists is the identity. -/
theorem map_bytesToAddress_id (l : List (List Nat))
    (h : ∀ t ∈ l, t.length = 20) : l.map bytesToAddress = l :=
  map_bytesToFixed_id 20 l h

/-- Mapping `bytesToHash` over exact-width lists is the identity. -/
theorem map_bytesToHash_id (l : List (List Nat))
    (h : ∀ t ∈ l, t.length = 32) : l.map bytesToHash = l :=
  map_bytesToFixed_id 32 l h

/-- Mapping `bytesToHash` over a topics list of exact-width hashes is the
identity. -/
theorem map_map_bytesToHash_id (l : List (List (List Nat)))
    (h : ∀ t ∈ l, ∀ x ∈ t, x.length = 32) :
    l.map (fun t => t.map bytesToHash) = l := by
  induction l with
  | nil => rfl
  | cons t rest ih =>
    rw [List.map_cons, map_bytesToHash_id t (h t (List.mem_cons_self t rest)),
      ih (fun x hx => h x (List.mem_cons_of_mem t hx))]

/-- Event codec round trip for well-formed events. -/
theorem EventFromProto_toProto (e : Event) (h : EventWF e) :
    EventFromProto (EventToProto e) = Except.ok e := by
  obtain ⟨ha, ht, hbh, hth, htf⟩ := h
  rw [EventToProto, EventFromProto]
  rw [if_neg (by simp [ha])]
  rw [bigIntFromString_toString]
  dsimp only
  rw [bytesToAddress_exact e.Address ha, map_bytesToHash_id e.Topics ht,
    bytesToHash_exact e.BlockHash hbh, bytesToHash_exact e.TxHash hth,
    bytesToAddress_exact e.TxFrom htf]

/-- The event-list decoder undoes the event-list encoder on well-formed
events. -/
theorem decodeEvents_encode (evs : List Event) (h : ∀ e ∈ evs, EventWF e) :
    decodeEvents (evs.map EventToProto) = Except.ok evs := by
  induction evs with
  | nil => rfl
  | cons e rest ih =>
    rw [List.map_cons, decodeEvents,
      EventFromProto_toProto e (h e (List.mem_cons_self e rest))]
    rw [ih (fun x hx => h x (List.mem_cons_of_mem e hx))]

/-- Block codec round trip: needs a 32-byte hash and well-formed events. -/
theorem BlockFromProto_toProto (b : Block) (hh : b.Hash.length = 32)
    (he : ∀ e ∈ b.Events, EventWF e) :
    BlockFromProto (BlockToProto b) = Except.ok b := by
  rw [BlockToProto, BlockFromProto]
  rw [decodeEvents_encode b.Events he]
  dsimp only
  rw [bytesToHash_exact b.Hash hh]

/-- The block-list decoder undoes the breaking encoder loop when every block
number is inside the window (so the encoder never breaks early). -/
theorem decodeBlocks_encode (endB : Nat) (bs : List Block)
    (h : ∀ b ∈ bs, b.Number < endB ∧ b.Hash.length = 32 ∧ ∀ e ∈ b.Events, EventWF e) :
    decodeBlocks (encodeBlocksTo endB bs) = Except.ok bs := by
  induction bs with
  | nil => rfl
  | cons b rest ih =>
    obtain ⟨hn, hh, he⟩ := h b (List.mem_cons_self b rest)
    rw [encodeBlocksTo, if_neg (by omega)]
    rw [decodeBlocks, BlockFromProto_toProto b hh he]
    rw [ih (fun x hx => h x (List.mem_cons_of_mem b hx))]

/-- BlockSlice codec round trip under the window condition. -/
theorem BlockSliceFromProto_toProto (bs : BlockSlice)
    (h : ∀ b ∈ bs.Blocks,
      b.Number < bs.End ∧ b.Hash.length = 32 ∧ ∀ e ∈ b.Events, EventWF e) :
    BlockSliceFromProto (BlockSliceToProto bs) = Except.ok bs := by
  rw [BlockSliceToProto, BlockSliceFromProto]
  rw [decodeBlocks_encode bs.End bs.Blocks h]

/-- FilterQuery codec round trip for well-formed filters. -/
theorem FilterQueryFromProto_toProto (q : FilterQuery) (h : FilterQueryWF q) :
    FilterQueryFromProto (FilterQueryToProto q) = Except.ok q := by
  obtain ⟨ha, ht⟩ := h
  rw [FilterQueryToProto, FilterQueryFromProto]
  rw [bigIntFromString_toString, bigIntFromString_toString]
  dsimp only
  rw [map_bytesToAddress_id q.Addresses ha, map_map_bytesToHash_id q.Topics ht]

/-! ## Claim C7 -/

/-- Claim C7: for every valid EventLogFile — a well-formed filter plus a
slice whose blocks sit inside the window with exact-width hashes and
well-formed events — decoding the encoding is the identity
(`InMemoryEventLogFromProto (ToProto l) = ok l`); absent big-ints encode as
the empty string and decode back to nil, which the `Option`-valued model
makes literal identity. -/
theorem c7_codec_roundtrip (l : InMemoryEventLog) (h : EventLogFileWF l) :
    InMemoryEventLogFromProto l.ToProto = Except.ok l := by
  obtain ⟨hf, hb⟩ := h
  rw [InMemoryEventLog.ToProto, InMemoryEventLogFromProto]
  rw [FilterQueryFromProto_toProto l.filter hf]
  dsimp only
  rw [BlockSliceFromProto_toProto l.blockSlice hb]

/-- Witness for C7: a one-block log with exact-width addresses and hashes
and one event (tx value present on the event, filter bounds one present,
one absent). -/
theorem c7_witness :
    InMemoryEventLogFromProto
        (InMemoryEventLog.ToProto
          ⟨⟨[List.replicate 20 7], some 5, none, [[List.replicate 32 3]]⟩,
            ⟨1, 4, 2,
              [⟨2, List.replicate 32 9,
                [⟨List.replicate 20 7, [List.replicate 32 3], [1, 2], 2,
                  List.replicate 32 9, 0, List.replicate 32 4, 1, [5],
                  some 255, List.replicate 20 8, 21000⟩]⟩]⟩⟩)
      = Except.ok
        ⟨⟨[List.replicate 20 7], some 5, none, [[List.replicate 32 3]]⟩,
          ⟨1, 4, 2,
            [⟨2, List.replicate 32 9,
              [⟨List.replicate 20 7, [List.replicate 32 3], [1, 2], 2,
                List.replicate 32 9, 0, List.replicate 32 4, 1, [5],
                some 255, List.replicate 20 8, 21000⟩]⟩]⟩⟩ :=
  c7_codec_roundtrip
    ⟨⟨[List.replicate 20 7], some 5, none, [[List.replicate 32 3]]⟩,
      ⟨1, 4, 2,
        [⟨2, List.replicate 32 9,
          [⟨List.replicate 20 7, [List.replicate 32 3], [1, 2], 2,
            List.replicate 32 9, 0, List.replicate 32 4, 1, [5],
            some 255, List.replicate 20 8, 21000⟩]⟩]⟩⟩
    (by decide)

end EthEventLog
